import Mathlib

/-!
Verification of the ad-classification pipeline of
`backend/classifier/classifier/commands/classify.py`.

The pipeline selects ads from storage (all of them in `every` mode, only
those whose `political_probability` still holds the sentinel 0 in `newest`
mode, optionally restricted to one language), routes each selected record to
the classifier registered for its language, and writes the resulting
probabilities back in bulk batches of 100.

The shallow embedding below models the storage collaborator as a list of
rows: the SQL select the code builds is denoted by a filter over that list
(`queryPred` / `runQuery`), the `select count(*) ... from (query)` wrapper by
the length of the same filter (`countQuery`), and the parameterized
`update ads set political_probability=:probability where id=:id` bulk
statement by a per-row conditional update (`applyUpdate`).  External
collaborators that the code only calls — the text extractor `get_text`, each
vectorizer's `transform` and each model's `predict_proba`, and the
possibility that opening / deserializing a classifier artifact fails, or
that a bulk write fails — are parameters of the embedding, never fixed.
Probabilities are modelled as rationals.
-/

namespace PoliticalAds

/-- A stored ad row, as the pipeline reads it: an identifier, a language
code, raw markup, and the stored classification probability (sentinel 0
means "never scored"). -/
structure Record where
  id : Nat
  lang : String
  html : String
  political_probability : ℚ
  deriving Repr, DecidableEq

/-- One pending `update ads set political_probability=:probability where
id=:id` parameter set, as appended to the `updates` buffer. -/
structure ScoreUpdate where
  id : Nat
  probability : ℚ
  deriving Repr, DecidableEq

/-- One `"Classified {p[id]} ({l[idx]} of {l[length]}) with
{p[probability]}"` progress line, kept structured. -/
structure ProgressLine where
  id : Nat
  idx : Nat
  length : Nat
  probability : ℚ
  deriving Repr, DecidableEq

/-- One entry of the `classifiers` dict: the two objects the loop stores per
language, each reduced to the single method the pipeline calls on it —
`vectorizer.transform` (one raw text in, one feature vector out) and
`classifier.predict_proba` (a feature vector in, a matrix of per-class
probability rows out). `Vec` is the opaque feature-vector type. -/
structure ClassifierBundle (Vec : Type) where
  transform : String → Vec
  predict_proba : Vec → List (List ℚ)

/-- Truthiness of the optional `--lang` option: Python's `if lang:` is false
both when the option is absent (`None`) and when it is the empty string. -/
def langTruthy : Option String → Bool
  | none => false
  | some s => s != ""

/-- The SQL text the code assembles into its `query` variable: the `newest`
branch starts from the sentinel predicate, the `every` branch from the bare
table, and a truthy language filter appends the `lang` condition. -/
def buildQuery (newest : Bool) (lang : Option String) : String :=
  if newest then
    let query := "select * from ads where political_probability = 0"
    if langTruthy lang then query ++ " and lang = '" ++ lang.getD "" ++ "'" else query
  else
    let query := "select * from ads"
    if langTruthy lang then query ++ " where lang = '" ++ lang.getD "" ++ "'" else query

/-- Row-level denotation of `buildQuery`: in `newest` mode a row qualifies
when its probability equals the sentinel 0, in `every` mode always, and a
truthy language filter also requires the row's language to equal it. -/
def queryPred (newest : Bool) (lang : Option String) (r : Record) : Bool :=
  if newest then
    decide (r.political_probability = 0) &&
      (if langTruthy lang then decide (r.lang = lang.getD "") else true)
  else
    if langTruthy lang then decide (r.lang = lang.getD "") else true

/-- Denotation of `DB.query(query)`: the rows of the table satisfying the
assembled predicate, in table order. -/
def runQuery (db : List Record) (newest : Bool) (lang : Option String) : List Record :=
  db.filter (queryPred newest lang)

/-- Denotation of `DB.query("select count(*) as length from ({}) as t1")`:
the number of rows the same assembled query returns. -/
def countQuery (db : List Record) (newest : Bool) (lang : Option String) : Nat :=
  (runQuery db newest lang).length

/-- Lookup in the `classifiers` dict, built by insertion: a later binding of
the same language code overwrites an earlier one, so the last binding wins. -/
def dictGet {α : Type} (m : List (String × α)) (k : String) : Option α :=
  (m.reverse.find? (fun e => e.1 == k)).map (fun e => e.2)

/-- The loading loop: one `(directory, conf)` entry per configured language,
each carrying either its deserialized bundle or the error raised while
opening / unpickling its artifact.  The first failing entry aborts the loop;
otherwise the full dict is built, in insertion order. -/
def loadClassifiers {Vec : Type} :
    List (String × Except String (ClassifierBundle Vec)) →
      Except String (List (String × ClassifierBundle Vec))
  | [] => .ok []
  | (_, .error e) :: _ => .error e
  | (l, .ok b) :: rest => (loadClassifiers rest).map (fun m => (l, b) :: m)

/-- The scoring engine, the body of `if record["lang"] in classifiers`: when
a bundle is registered for the record's language, vectorize the extracted
text and read entry `[0][1]` of `predict_proba`'s output (row 0 = the one
sample, column 1 = the political class); otherwise produce nothing. -/
def scoreRecord {Vec : Type} (get_text : String → String)
    (classifiers : List (String × ClassifierBundle Vec)) (r : Record) :
    Option ScoreUpdate :=
  match dictGet classifiers r.lang with
  | none => none
  | some c =>
    let text := c.transform (get_text r.html)
    some { id := r.id, probability := ((c.predict_proba text).getD 0 []).getD 1 0 }

/-- The mutable state of the main loop: the running index, the `updates`
buffer, the bulk writes already issued (in order), and the progress lines
printed so far. -/
structure RunState where
  idx : Nat
  updates : List ScoreUpdate
  bulkWrites : List (List ScoreUpdate)
  progress : List ProgressLine
  deriving Repr, DecidableEq

/-- State at the top of the loop: `idx = 0`, empty buffer, nothing written,
nothing printed. -/
def initState : RunState :=
  { idx := 0, updates := [], bulkWrites := [], progress := [] }

/-- One iteration of `for record in records`: increment `idx`; if the
record's language has a registered bundle, append its update, print the
progress line, and when the buffer has reached 100 bulk-write it and clear
it; otherwise change nothing but `idx`. -/
def processRecord {Vec : Type} (get_text : String → String)
    (classifiers : List (String × ClassifierBundle Vec)) (total : Nat)
    (s : RunState) (r : Record) : RunState :=
  let idx := s.idx + 1
  match scoreRecord get_text classifiers r with
  | none => { s with idx := idx }
  | some u =>
    let updates := s.updates ++ [u]
    let progress := s.progress ++
      [{ id := u.id, idx := idx, length := total, probability := u.probability }]
    if 100 ≤ updates.length then
      { idx := idx, updates := [], bulkWrites := s.bulkWrites ++ [updates],
        progress := progress }
    else
      { idx := idx, updates := updates, bulkWrites := s.bulkWrites,
        progress := progress }

/-- The whole `classify` command on a table `db` (with every bulk write
succeeding): run the assembled query and its count, fold the loop body over
the stream, and flush the non-empty remainder of the buffer at end of
stream. -/
def classify {Vec : Type} (get_text : String → String)
    (classifiers : List (String × ClassifierBundle Vec)) (db : List Record)
    (newest : Bool) (lang : Option String) : RunState :=
  let records := runQuery db newest lang
  let total := countQuery db newest lang
  let s := records.foldl (processRecord get_text classifiers total) initState
  if s.updates = [] then s
  else { s with bulkWrites := s.bulkWrites ++ [s.updates] }

/-- Effect of one parameter set of the bulk statement on one row. -/
def pointStep (r : Record) (u : ScoreUpdate) : Record :=
  if r.id = u.id then { r with political_probability := u.probability } else r

/-- Denotation of one parameter set of `update ads set
political_probability=:probability where id=:id` on the table. -/
def applyUpdate (db : List Record) (u : ScoreUpdate) : List Record :=
  db.map (fun r => pointStep r u)

/-- Denotation of `DB.bulk_query(query, updates)`: the parameter sets of one
bulk call, applied in order. -/
def applyBulk (db : List Record) (us : List ScoreUpdate) : List Record :=
  us.foldl applyUpdate db

/-- The table after a sequence of bulk calls. -/
def applyWrites (db : List Record) (ws : List (List ScoreUpdate)) : List Record :=
  ws.foldl applyBulk db

/-- The table after one full, successful run of `classify`. -/
def classifyAndCommit {Vec : Type} (get_text : String → String)
    (classifiers : List (String × ClassifierBundle Vec)) (db : List Record)
    (newest : Bool) (lang : Option String) : List Record :=
  applyWrites db (classify get_text classifiers db newest lang).bulkWrites

/-- What the operator is left with when a `DB.bulk_query` call raises: the
exception propagates out of `classify`, and exactly the batches written by
the earlier, successful calls remain committed. -/
structure AbortInfo where
  committed : List (List ScoreUpdate)
  deriving Repr, DecidableEq

/-- One iteration of the loop against a storage collaborator whose `n`-th
bulk call (counted from 0 across the run) raises exactly when `failsOn n` —
the code has no handler, so a raising call ends the run with the prior
batches committed.  With `failsOn` identically false this is
`processRecord`. -/
def processRecordE {Vec : Type} (failsOn : Nat → Bool) (get_text : String → String)
    (classifiers : List (String × ClassifierBundle Vec)) (total : Nat)
    (s : RunState) (r : Record) : Except AbortInfo RunState :=
  let idx := s.idx + 1
  match scoreRecord get_text classifiers r with
  | none => .ok { s with idx := idx }
  | some u =>
    let updates := s.updates ++ [u]
    let progress := s.progress ++
      [{ id := u.id, idx := idx, length := total, probability := u.probability }]
    if 100 ≤ updates.length then
      if failsOn s.bulkWrites.length then .error { committed := s.bulkWrites }
      else
        .ok { idx := idx, updates := [], bulkWrites := s.bulkWrites ++ [updates],
              progress := progress }
    else
      .ok { idx := idx, updates := updates, bulkWrites := s.bulkWrites,
            progress := progress }

/-- The `for record in records` loop against fallible storage: run the body
record by record, stopping at the first raising bulk call. -/
def foldE {Vec : Type} (failsOn : Nat → Bool) (get_text : String → String)
    (classifiers : List (String × ClassifierBundle Vec)) (total : Nat) :
    List Record → RunState → Except AbortInfo RunState
  | [], s => .ok s
  | r :: rs, s =>
    match processRecordE failsOn get_text classifiers total s r with
    | .error a => .error a
    | .ok s' => foldE failsOn get_text classifiers total rs s'

/-- The `classify` command against fallible storage: the loop runs until a
bulk call raises, and the final flush of a non-empty buffer may raise too. -/
def classifyE {Vec : Type} (failsOn : Nat → Bool) (get_text : String → String)
    (classifiers : List (String × ClassifierBundle Vec)) (db : List Record)
    (newest : Bool) (lang : Option String) : Except AbortInfo RunState :=
  let records := runQuery db newest lang
  let total := countQuery db newest lang
  match foldE failsOn get_text classifiers total records initState with
  | .error a => .error a
  | .ok s =>
    if s.updates = [] then .ok s
    else if failsOn s.bulkWrites.length then .error { committed := s.bulkWrites }
    else .ok { s with bulkWrites := s.bulkWrites ++ [s.updates] }

/-- How a run can abort: an exception while opening / unpickling a
classifier artifact (before any record is processed, nothing committed), or
a failing bulk write (the earlier batches stay committed). -/
inductive RunError where
  | loadError (msg : String)
  | writeError (a : AbortInfo)
  deriving Repr, DecidableEq

/-- The full command: load every classifier bundle eagerly, then stream,
score and batch (the assembled query and its count are pure here, so their
evaluation commutes with the loading that precedes the loop in the code).
A failing artifact load surfaces as `RunError.loadError` before the loop
ever starts and before any write; a failing bulk write as
`RunError.writeError` carrying the batches already committed. -/
def classifyFull {Vec : Type} (failsOn : Nat → Bool) (get_text : String → String)
    (entries : List (String × Except String (ClassifierBundle Vec)))
    (db : List Record) (newest : Bool) (lang : Option String) :
    Except RunError RunState :=
  match loadClassifiers entries with
  | .error e => .error (.loadError e)
  | .ok classifiers =>
    match classifyE failsOn get_text classifiers db newest lang with
    | .error a => .error (.writeError a)
    | .ok s => .ok s

/-! Helper lemmas.  The loop's effect on the `updates` buffer and the issued
bulk writes depends only on the sequence of updates the scoring engine
produces; `addU` is that effect for a single produced update. -/

/-- Effect of one produced update on the pair (buffer, bulk writes issued so
far): append, and flush when the buffer reaches 100. -/
def addU (b : List ScoreUpdate × List (List ScoreUpdate)) (u : ScoreUpdate) :
    List ScoreUpdate × List (List ScoreUpdate) :=
  let updates := b.1 ++ [u]
  if 100 ≤ updates.length then ([], b.2 ++ [updates]) else (updates, b.2)

theorem fold_proj {Vec : Type} (get_text : String → String)
    (classifiers : List (String × ClassifierBundle Vec)) (total : Nat)
    (rs : List Record) (s : RunState) :
    ((rs.foldl (processRecord get_text classifiers total) s).updates,
      (rs.foldl (processRecord get_text classifiers total) s).bulkWrites)
      = (rs.filterMap (scoreRecord get_text classifiers)).foldl addU
          (s.updates, s.bulkWrites) := by
  induction rs generalizing s with
  | nil => rfl
  | cons r rs ih =>
    cases h : scoreRecord get_text classifiers r with
    | none =>
      simp only [List.foldl_cons, List.filterMap_cons, h, processRecord]
      exact ih _
    | some u =>
      simp only [List.foldl_cons, List.filterMap_cons, h, processRecord, addU]
      by_cases hle : 100 ≤ (s.updates ++ [u]).length
      · simp only [hle, if_pos]
        exact ih _
      · simp only [hle, if_neg, not_false_iff]
        exact ih _

theorem addU_lengths (l : List ScoreUpdate) (buf : List ScoreUpdate)
    (ws : List (List ScoreUpdate)) (h : buf.length < 100) :
    (l.foldl addU (buf, ws)).2.map List.length
        = ws.map List.length ++ List.replicate ((buf.length + l.length) / 100) 100
      ∧ (l.foldl addU (buf, ws)).1.length = (buf.length + l.length) % 100 := by
  induction l generalizing buf ws with
  | nil =>
    simp [Nat.div_eq_of_lt h, Nat.mod_eq_of_lt h]
  | cons u l ih =>
    simp only [List.foldl_cons, addU]
    by_cases hle : 100 ≤ (buf ++ [u]).length
    · have hb : buf.length = 99 := by
        simp only [List.length_append, List.length_singleton, List.length_nil] at hle; omega
      simp only [hle, if_pos]
      obtain ⟨h1, h2⟩ := ih [] (ws ++ [buf ++ [u]]) (by simp)
      have hlen : (buf ++ [u]).length = 100 := by simp [hb]
      have hdiv : (buf.length + (u :: l).length) / 100 = l.length / 100 + 1 := by
        simp only [List.length_cons, hb]; omega
      constructor
      · rw [h1, hdiv, List.replicate_succ]
        simp [hlen]
      · rw [h2]
        simp only [List.length_nil, List.length_cons, hb]
        omega
    · simp only [hle, if_neg, not_false_iff]
      have hlt : (buf ++ [u]).length < 100 := by
        simp only [List.length_append, List.length_singleton, List.length_nil] at hle ⊢; omega
      obtain ⟨h1, h2⟩ := ih (buf ++ [u]) ws hlt
      have harith : (buf ++ [u]).length + l.length = buf.length + (u :: l).length := by
        simp only [List.length_append, List.length_singleton, List.length_nil, List.length_cons]
        omega
      rw [harith] at h1 h2
      exact ⟨h1, h2⟩

theorem addU_flatten (l : List ScoreUpdate) (buf : List ScoreUpdate)
    (ws : List (List ScoreUpdate)) :
    (l.foldl addU (buf, ws)).2.flatten ++ (l.foldl addU (buf, ws)).1
      = ws.flatten ++ buf ++ l := by
  induction l generalizing buf ws with
  | nil => simp
  | cons u l ih =>
    simp only [List.foldl_cons, addU]
    by_cases hle : 100 ≤ (buf ++ [u]).length
    · simp only [hle, if_pos]
      rw [ih]
      simp [List.append_assoc]
    · simp only [hle, if_neg, not_false_iff]
      rw [ih]
      simp [List.append_assoc]

theorem fold_idx {Vec : Type} (get_text : String → String)
    (classifiers : List (String × ClassifierBundle Vec)) (total : Nat)
    (rs : List Record) (s : RunState) :
    (rs.foldl (processRecord get_text classifiers total) s).idx
      = s.idx + rs.length := by
  induction rs generalizing s with
  | nil => simp
  | cons r rs ih =>
    simp only [List.foldl_cons, List.length_cons]
    cases h : scoreRecord get_text classifiers r with
    | none =>
      simp only [processRecord, h]
      rw [ih]; simp; omega
    | some u =>
      simp only [processRecord, h]
      by_cases hle : 100 ≤ (s.updates ++ [u]).length
      · simp only [hle, if_pos]; rw [ih]; simp; omega
      · simp only [hle, if_neg, not_false_iff]; rw [ih]; simp; omega

theorem classify_writes_spec {Vec : Type} (get_text : String → String)
    (classifiers : List (String × ClassifierBundle Vec)) (db : List Record)
    (newest : Bool) (lang : Option String) :
    (classify get_text classifiers db newest lang).bulkWrites.map List.length
        = List.replicate
            (((runQuery db newest lang).filterMap
                (scoreRecord get_text classifiers)).length / 100) 100
          ++ (if ((runQuery db newest lang).filterMap
                  (scoreRecord get_text classifiers)).length % 100 = 0
              then []
              else [((runQuery db newest lang).filterMap
                      (scoreRecord get_text classifiers)).length % 100])
      ∧ (classify get_text classifiers db newest lang).bulkWrites.flatten
          = (runQuery db newest lang).filterMap (scoreRecord get_text classifiers) := by
  have hproj := fold_proj get_text classifiers (countQuery db newest lang)
    (runQuery db newest lang) initState
  set l := (runQuery db newest lang).filterMap (scoreRecord get_text classifiers) with hl
  set sF := (runQuery db newest lang).foldl
    (processRecord get_text classifiers (countQuery db newest lang)) initState with hsF
  have hupd : sF.updates = (l.foldl addU ([], [])).1 := congrArg Prod.fst hproj
  have hbw : sF.bulkWrites = (l.foldl addU ([], [])).2 := congrArg Prod.snd hproj
  obtain ⟨hlen, hrem⟩ := addU_lengths l [] [] (by simp)
  have hflat := addU_flatten l [] []
  simp only [List.length_nil, Nat.zero_add, List.map_nil, List.nil_append,
    List.flatten_nil] at hlen hrem hflat
  have hcl : classify get_text classifiers db newest lang
      = if sF.updates = [] then sF
        else { sF with bulkWrites := sF.bulkWrites ++ [sF.updates] } := rfl
  by_cases hemp : sF.updates = []
  · have hmod : l.length % 100 = 0 := by
      rw [← hrem, ← hupd, hemp]; rfl
    rw [hcl, if_pos hemp]
    refine ⟨?_, ?_⟩
    · rw [hbw, hlen, hmod, if_pos rfl, List.append_nil]
    · have hone : (l.foldl addU ([], [])).1 = [] := by rw [← hupd, hemp]
      rw [hone, List.append_nil] at hflat
      rw [hbw, hflat]
  · have hmod : l.length % 100 ≠ 0 := by
      rw [← hrem, ← hupd]
      intro hz
      exact hemp (List.eq_nil_of_length_eq_zero (hupd ▸ hz))
    rw [hcl, if_neg hemp]
    refine ⟨?_, ?_⟩
    · simp only [List.map_append, List.map_cons, List.map_nil]
      rw [hbw, hlen, hupd, hrem, if_neg hmod]
    · simp only [List.flatten_append, List.flatten_cons, List.flatten_nil,
        List.append_nil]
      rw [hbw, hupd, hflat]

theorem classify_idx_spec {Vec : Type} (get_text : String → String)
    (classifiers : List (String × ClassifierBundle Vec)) (db : List Record)
    (newest : Bool) (lang : Option String) :
    (classify get_text classifiers db newest lang).idx
      = (runQuery db newest lang).length := by
  have hidx := fold_idx get_text classifiers (countQuery db newest lang)
    (runQuery db newest lang) initState
  have hcl : classify get_text classifiers db newest lang
      = if ((runQuery db newest lang).foldl
            (processRecord get_text classifiers (countQuery db newest lang))
            initState).updates = []
        then (runQuery db newest lang).foldl
            (processRecord get_text classifiers (countQuery db newest lang)) initState
        else { (runQuery db newest lang).foldl
                (processRecord get_text classifiers (countQuery db newest lang))
                initState with
               bulkWrites := ((runQuery db newest lang).foldl
                  (processRecord get_text classifiers (countQuery db newest lang))
                  initState).bulkWrites
                ++ [((runQuery db newest lang).foldl
                      (processRecord get_text classifiers (countQuery db newest lang))
                      initState).updates] } := rfl
  rw [hcl]
  split
  · rw [hidx]; simp [initState]
  · show ((runQuery db newest lang).foldl
        (processRecord get_text classifiers (countQuery db newest lang))
        initState).idx = _
    rw [hidx]; simp [initState]

theorem length_filterMap_scoreRecord {Vec : Type} (get_text : String → String)
    (classifiers : List (String × ClassifierBundle Vec)) (rs : List Record) :
    (rs.filterMap (scoreRecord get_text classifiers)).length
      = (rs.filter (fun r => (dictGet classifiers r.lang).isSome)).length := by
  induction rs with
  | nil => rfl
  | cons r rs ih =>
    cases h : dictGet classifiers r.lang with
    | none =>
      have hs : scoreRecord get_text classifiers r = none := by
        simp [scoreRecord, h]
      simp [List.filterMap_cons, List.filter_cons, hs, h, ih]
    | some c =>
      have hs : scoreRecord get_text classifiers r
          = some { id := r.id,
                   probability := ((c.predict_proba (c.transform (get_text r.html))).getD
                      0 []).getD 1 0 } := by
        simp [scoreRecord, h]
      simp [List.filterMap_cons, List.filter_cons, hs, h, ih]

theorem applyBulk_map (us : List ScoreUpdate) (db : List Record) :
    applyBulk db us = db.map (fun r => us.foldl pointStep r) := by
  induction us generalizing db with
  | nil =>
    show db = db.map (fun r => r)
    rw [List.map_id']
  | cons u us ih =>
    have hstep : applyBulk db (u :: us) = applyBulk (applyUpdate db u) us := rfl
    rw [hstep, ih, applyUpdate, List.map_map]
    rfl

theorem applyWrites_flatten (ws : List (List ScoreUpdate)) (db : List Record) :
    applyWrites db ws = applyBulk db ws.flatten := by
  induction ws generalizing db with
  | nil => rfl
  | cons w ws ih =>
    have hstep : applyWrites db (w :: ws) = applyWrites (applyBulk db w) ws := rfl
    rw [hstep, ih, List.flatten_cons]
    simp only [applyBulk]
    rw [List.foldl_append]

theorem pointStep_fields (r : Record) (u : ScoreUpdate) :
    (pointStep r u).id = r.id ∧ (pointStep r u).lang = r.lang
      ∧ (pointStep r u).html = r.html := by
  unfold pointStep
  split <;> exact ⟨rfl, rfl, rfl⟩

theorem foldl_pointStep_no_match (us : List ScoreUpdate) (r : Record)
    (h : ∀ u ∈ us, u.id ≠ r.id) : us.foldl pointStep r = r := by
  induction us generalizing r with
  | nil => rfl
  | cons u us ih =>
    have hu : pointStep r u = r := by
      unfold pointStep
      rw [if_neg]
      intro he
      exact h u (List.mem_cons_self u us) he.symm
    rw [List.foldl_cons, hu]
    exact ih r (fun v hv => h v (List.mem_cons_of_mem _ hv))

theorem foldl_pointStep_match (us : List ScoreUpdate) (r : Record)
    (h : ∃ u ∈ us, u.id = r.id) :
    ∃ u ∈ us, u.id = r.id
      ∧ (us.foldl pointStep r).political_probability = u.probability := by
  induction us generalizing r with
  | nil =>
    obtain ⟨u, hu, _⟩ := h
    exact absurd hu (List.not_mem_nil u)
  | cons u us ih =>
    rw [List.foldl_cons]
    have hid : (pointStep r u).id = r.id := (pointStep_fields r u).1
    by_cases hm : ∃ v ∈ us, v.id = (pointStep r u).id
    · obtain ⟨v, hv, hvid, hvp⟩ := ih (pointStep r u) hm
      rw [hid] at hvid
      exact ⟨v, List.mem_cons_of_mem _ hv, hvid, hvp⟩
    · have hnm : ∀ v ∈ us, v.id ≠ (pointStep r u).id := by
        intro v hv he
        exact hm ⟨v, hv, he⟩
      rw [foldl_pointStep_no_match us (pointStep r u) hnm]
      obtain ⟨w, hw, hwid⟩ := h
      rcases List.mem_cons.mp hw with hwu | hwus
      · subst hwu
        refine ⟨w, List.mem_cons_self _ _, hwid, ?_⟩
        unfold pointStep
        rw [if_pos hwid.symm]
      · exact absurd ⟨w, hwus, by rw [hid]; exact hwid⟩ hm

theorem scoreRecord_some_id {Vec : Type} (get_text : String → String)
    (classifiers : List (String × ClassifierBundle Vec)) (r : Record)
    (u : ScoreUpdate) (h : scoreRecord get_text classifiers r = some u) :
    u.id = r.id := by
  unfold scoreRecord at h
  cases hd : dictGet classifiers r.lang with
  | none => rw [hd] at h; exact Option.noConfusion h
  | some c =>
    rw [hd] at h
    have := Option.some.inj h
    rw [← this]

theorem scoreRecord_none_iff {Vec : Type} (get_text : String → String)
    (classifiers : List (String × ClassifierBundle Vec)) (r : Record) :
    scoreRecord get_text classifiers r = none ↔ dictGet classifiers r.lang = none := by
  unfold scoreRecord
  cases hd : dictGet classifiers r.lang <;> simp

theorem classifyAndCommit_map {Vec : Type} (get_text : String → String)
    (classifiers : List (String × ClassifierBundle Vec)) (db : List Record)
    (newest : Bool) (lang : Option String) :
    classifyAndCommit get_text classifiers db newest lang
      = db.map (fun r =>
          ((runQuery db newest lang).filterMap
            (scoreRecord get_text classifiers)).foldl pointStep r) := by
  unfold classifyAndCommit
  rw [applyWrites_flatten,
    (classify_writes_spec get_text classifiers db newest lang).2, applyBulk_map]

theorem no_update_for_unscored {Vec : Type} (get_text : String → String)
    (classifiers : List (String × ClassifierBundle Vec)) (db : List Record)
    (newest : Bool) (lang : Option String) (r : Record)
    (hnodup : (db.map Record.id).Nodup) (hmem : r ∈ db)
    (hns : scoreRecord get_text classifiers r = none) :
    ∀ u ∈ (runQuery db newest lang).filterMap (scoreRecord get_text classifiers),
      u.id ≠ r.id := by
  intro u hu he
  obtain ⟨r2, hr2mem, hr2⟩ := List.mem_filterMap.mp hu
  have hid : u.id = r2.id := scoreRecord_some_id _ _ _ _ hr2
  have hr2db : r2 ∈ db := List.mem_of_mem_filter hr2mem
  have hr2r : r2 = r :=
    List.inj_on_of_nodup_map hnodup hr2db hmem (by rw [← hid, he])
  rw [hr2r, hns] at hr2
  exact Option.noConfusion hr2

theorem processRecord_none {Vec : Type} (get_text : String → String)
    (classifiers : List (String × ClassifierBundle Vec)) (total : Nat)
    (s : RunState) (r : Record) (h : scoreRecord get_text classifiers r = none) :
    processRecord get_text classifiers total s r = { s with idx := s.idx + 1 } := by
  unfold processRecord
  rw [h]

theorem processRecordE_none {Vec : Type} (failsOn : Nat → Bool)
    (get_text : String → String) (classifiers : List (String × ClassifierBundle Vec))
    (total : Nat) (s : RunState) (r : Record)
    (h : scoreRecord get_text classifiers r = none) :
    processRecordE failsOn get_text classifiers total s r
      = .ok { s with idx := s.idx + 1 } := by
  unfold processRecordE
  rw [h]

theorem processRecordE_ok_eq {Vec : Type} (failsOn : Nat → Bool)
    (get_text : String → String) (classifiers : List (String × ClassifierBundle Vec))
    (total : Nat) (s : RunState) (r : Record) (u : ScoreUpdate)
    (h : scoreRecord get_text classifiers r = some u)
    (hok : 100 ≤ (s.updates ++ [u]).length → failsOn s.bulkWrites.length = false) :
    processRecordE failsOn get_text classifiers total s r
      = .ok (processRecord get_text classifiers total s r) := by
  unfold processRecordE processRecord
  rw [h]
  by_cases hfl : 100 ≤ (s.updates ++ [u]).length
  · simp only [hfl, if_pos, hok hfl, Bool.false_eq_true, if_neg, not_false_iff]
  · simp only [hfl, if_neg, not_false_iff]

theorem processRecordE_flush_fail {Vec : Type} (failsOn : Nat → Bool)
    (get_text : String → String) (classifiers : List (String × ClassifierBundle Vec))
    (total : Nat) (s : RunState) (r : Record) (u : ScoreUpdate)
    (h : scoreRecord get_text classifiers r = some u)
    (hfl : 100 ≤ (s.updates ++ [u]).length)
    (hfail : failsOn s.bulkWrites.length = true) :
    processRecordE failsOn get_text classifiers total s r
      = .error { committed := s.bulkWrites } := by
  unfold processRecordE
  rw [h]
  simp only [hfl, if_pos, hfail]

theorem processRecord_writes {Vec : Type} (get_text : String → String)
    (classifiers : List (String × ClassifierBundle Vec)) (total : Nat)
    (s : RunState) (r : Record) :
    ∃ t, (processRecord get_text classifiers total s r).bulkWrites
      = s.bulkWrites ++ t := by
  unfold processRecord
  cases scoreRecord get_text classifiers r with
  | none => exact ⟨[], (List.append_nil _).symm⟩
  | some u =>
    by_cases hfl : 100 ≤ (s.updates ++ [u]).length
    · exact ⟨[s.updates ++ [u]], by simp only [hfl, if_pos]⟩
    · exact ⟨[], by simp only [hfl, if_neg, not_false_iff, List.append_nil]⟩

theorem fold_writes_mono {Vec : Type} (get_text : String → String)
    (classifiers : List (String × ClassifierBundle Vec)) (total : Nat)
    (rs : List Record) (s : RunState) :
    ∃ t, (rs.foldl (processRecord get_text classifiers total) s).bulkWrites
      = s.bulkWrites ++ t := by
  induction rs generalizing s with
  | nil => exact ⟨[], (List.append_nil _).symm⟩
  | cons r rs ih =>
    rw [List.foldl_cons]
    obtain ⟨t1, ht1⟩ := processRecord_writes get_text classifiers total s r
    obtain ⟨t2, ht2⟩ := ih (processRecord get_text classifiers total s r)
    exact ⟨t1 ++ t2, by rw [ht2, ht1, List.append_assoc]⟩

theorem foldE_ok {Vec : Type} (failsOn : Nat → Bool) (get_text : String → String)
    (classifiers : List (String × ClassifierBundle Vec)) (total : Nat)
    (rs : List Record) (s : RunState)
    (h : ∀ j, s.bulkWrites.length ≤ j →
      j < ((rs.foldl (processRecord get_text classifiers total) s).bulkWrites).length →
      failsOn j = false) :
    foldE failsOn get_text classifiers total rs s
      = .ok (rs.foldl (processRecord get_text classifiers total) s) := by
  induction rs generalizing s with
  | nil => rfl
  | cons r rs ih =>
    rw [List.foldl_cons] at h ⊢
    have hwstep := processRecord_writes get_text classifiers total s r
    obtain ⟨t1, ht1⟩ := hwstep
    have hstep : processRecordE failsOn get_text classifiers total s r
        = .ok (processRecord get_text classifiers total s r) := by
      cases hsc : scoreRecord get_text classifiers r with
      | none =>
        rw [processRecordE_none failsOn get_text classifiers total s r hsc,
          processRecord_none get_text classifiers total s r hsc]
      | some u =>
        refine processRecordE_ok_eq failsOn get_text classifiers total s r u hsc ?_
        intro hfl
        refine h s.bulkWrites.length (le_refl _) ?_
        obtain ⟨t2, ht2⟩ :=
          fold_writes_mono get_text classifiers total rs
            (processRecord get_text classifiers total s r)
        rw [ht2, ht1]
        have hne : t1 ≠ [] := by
          unfold processRecord at ht1
          rw [hsc] at ht1
          simp only [hfl, if_pos] at ht1
          intro hnil
          rw [hnil, List.append_nil] at ht1
          have := congrArg List.length ht1
          simp at this
        simp only [List.length_append]
        have : 0 < t1.length := List.length_pos.mpr hne
        omega
    show (match processRecordE failsOn get_text classifiers total s r with
      | .error a => (Except.error a : Except AbortInfo RunState)
      | .ok s' => foldE failsOn get_text classifiers total rs s') = _
    rw [hstep]
    refine ih (processRecord get_text classifiers total s r) ?_
    intro j hj1 hj2
    refine h j ?_ hj2
    rw [ht1] at hj1
    simp only [List.length_append] at hj1
    omega

theorem foldE_error {Vec : Type} (failsOn : Nat → Bool) (get_text : String → String)
    (classifiers : List (String × ClassifierBundle Vec)) (total : Nat)
    (rs : List Record) (s : RunState) (k : Nat)
    (hstart : s.bulkWrites.length ≤ k)
    (hbefore : ∀ j < k, failsOn j = false)
    (hfail : failsOn k = true)
    (hk : k < ((rs.foldl (processRecord get_text classifiers total) s).bulkWrites).length) :
    foldE failsOn get_text classifiers total rs s
      = .error { committed :=
          ((rs.foldl (processRecord get_text classifiers total) s).bulkWrites).take k } := by
  induction rs generalizing s with
  | nil =>
    rw [List.foldl_nil] at hk
    exact absurd hk (Nat.not_lt.mpr hstart)
  | cons r rs ih =>
    rw [List.foldl_cons] at hk ⊢
    show (match processRecordE failsOn get_text classifiers total s r with
      | .error a => (Except.error a : Except AbortInfo RunState)
      | .ok s' => foldE failsOn get_text classifiers total rs s') = _
    cases hsc : scoreRecord get_text classifiers r with
    | none =>
      rw [processRecordE_none failsOn get_text classifiers total s r hsc,
        processRecord_none get_text classifiers total s r hsc]
      rw [processRecord_none get_text classifiers total s r hsc] at hk
      exact ih _ hstart hk
    | some u =>
      by_cases hfl : 100 ≤ (s.updates ++ [u]).length
      · by_cases hjk : s.bulkWrites.length = k
        · rw [processRecordE_flush_fail failsOn get_text classifiers total s r u hsc hfl
            (hjk ▸ hfail)]
          obtain ⟨t1, ht1⟩ := processRecord_writes get_text classifiers total s r
          obtain ⟨t2, ht2⟩ :=
            fold_writes_mono get_text classifiers total rs
              (processRecord get_text classifiers total s r)
          rw [ht2, ht1, List.append_assoc, ← hjk, List.take_left]
        · have hlt : s.bulkWrites.length < k := Nat.lt_of_le_of_ne hstart hjk
          have hok : processRecordE failsOn get_text classifiers total s r
              = .ok (processRecord get_text classifiers total s r) :=
            processRecordE_ok_eq failsOn get_text classifiers total s r u hsc
              (fun _ => hbefore s.bulkWrites.length hlt)
          rw [hok]
          refine ih _ ?_ hk
          obtain ⟨t1, ht1⟩ := processRecord_writes get_text classifiers total s r
          rw [ht1]
          unfold processRecord at ht1
          rw [hsc] at ht1
          simp only [hfl, if_pos] at ht1
          have ht1len : t1.length = 1 := by
            have := congrArg List.length ht1
            simp only [List.length_append, List.length_cons, List.length_nil] at this
            omega
          simp only [List.length_append, ht1len]
          omega
      · have hok : processRecordE failsOn get_text classifiers total s r
            = .ok (processRecord get_text classifiers total s r) :=
          processRecordE_ok_eq failsOn get_text classifiers total s r u hsc
            (fun hc => absurd hc hfl)
        rw [hok]
        refine ih _ ?_ hk
        have hw : (processRecord get_text classifiers total s r).bulkWrites
            = s.bulkWrites := by
          unfold processRecord
          rw [hsc]
          simp only [hfl, if_neg, not_false_iff]
        rw [hw]
        exact hstart

/-! Claim theorems. -/

/-- C1: a run over N scoreable records (records whose language has a
registered classifier) issues bulk writes whose sizes are exactly
`N / 100` full batches of 100 followed by one final batch of `N % 100` when
that remainder is non-zero — hence exactly `⌈N / 100⌉ = (N + 99) / 100`
bulk-write calls, each threshold flush carrying exactly 100 updates, the
final flush `N % 100` (or 100 when 100 divides N, in which case it is one of
the full batches and no extra call happens), and no call at all when
`N = 0`. -/
theorem claim_C1_batch_boundary {Vec : Type} (get_text : String → String)
    (classifiers : List (String × ClassifierBundle Vec)) (db : List Record)
    (newest : Bool) (lang : Option String) :
    (classify get_text classifiers db newest lang).bulkWrites.map List.length
        = List.replicate
            (((runQuery db newest lang).filter
                (fun r => (dictGet classifiers r.lang).isSome)).length / 100) 100
          ++ (if ((runQuery db newest lang).filter
                  (fun r => (dictGet classifiers r.lang).isSome)).length % 100 = 0
              then []
              else [((runQuery db newest lang).filter
                      (fun r => (dictGet classifiers r.lang).isSome)).length % 100])
      ∧ (classify get_text classifiers db newest lang).bulkWrites.length
          = (((runQuery db newest lang).filter
              (fun r => (dictGet classifiers r.lang).isSome)).length + 99) / 100
      ∧ (((runQuery db newest lang).filter
            (fun r => (dictGet classifiers r.lang).isSome)).length = 0 →
          (classify get_text classifiers db newest lang).bulkWrites = []) := by
  have hspec := (classify_writes_spec get_text classifiers db newest lang).1
  have hN := length_filterMap_scoreRecord get_text classifiers (runQuery db newest lang)
  rw [hN] at hspec
  set N := ((runQuery db newest lang).filter
    (fun r => (dictGet classifiers r.lang).isSome)).length with hNdef
  refine ⟨hspec, ?_, ?_⟩
  · have hlen := congrArg List.length hspec
    rw [List.length_map, List.length_append, List.length_replicate] at hlen
    by_cases h0 : N % 100 = 0
    · rw [if_pos h0, List.length_nil] at hlen
      rw [hlen]
      omega
    · rw [if_neg h0, List.length_cons, List.length_nil] at hlen
      rw [hlen]
      omega
  · intro h0
    rw [h0] at hspec
    norm_num at hspec
    exact hspec

/-- C3: the selection predicate denoted by the assembled query keeps, in
`newest` mode, exactly the stored rows whose probability equals the sentinel
0, in `every` mode all stored rows, in both cases intersected with the
language condition whenever the language filter is truthy; consequently when
a (non-empty) filter L is set every streamed record has `lang = L`, so
records of other languages are never fetched. -/
theorem claim_C3_selection (db : List Record) (lang : Option String) (r : Record) :
    (r ∈ runQuery db true lang ↔
      r ∈ db ∧ r.political_probability = 0
        ∧ (langTruthy lang = true → r.lang = lang.getD ""))
    ∧ (r ∈ runQuery db false lang ↔
      r ∈ db ∧ (langTruthy lang = true → r.lang = lang.getD ""))
    ∧ (∀ L : String, lang = some L → langTruthy lang = true →
        ∀ newest : Bool, ∀ x ∈ runQuery db newest lang, x.lang = L) := by
  have hmem : ∀ (newest : Bool) (x : Record), x ∈ runQuery db newest lang ↔
      x ∈ db ∧ queryPred newest lang x = true := by
    intro newest x
    exact List.mem_filter
  refine ⟨?_, ?_, ?_⟩
  · rw [hmem]
    unfold queryPred
    by_cases ht : langTruthy lang <;> simp [ht, and_assoc]
  · rw [hmem]
    unfold queryPred
    by_cases ht : langTruthy lang <;> simp [ht]
  · intro L hL ht newest x hx
    have hq := ((hmem newest x).mp hx).2
    unfold queryPred at hq
    cases newest with
    | true =>
      rw [if_pos rfl, ht, if_pos rfl] at hq
      have := (Bool.and_eq_true _ _).mp hq
      have hlang := of_decide_eq_true this.2
      rw [hL] at hlang
      exact hlang
    | false =>
      rw [if_neg (by simp), ht, if_pos rfl] at hq
      have hlang := of_decide_eq_true hq
      rw [hL] at hlang
      exact hlang

/-- C6: the count is computed over the very predicate the stream is computed
over, so (with storage unchanged between the two reads, as the model's
immutable table is) the reported total equals the number of rows streamed —
which in turn equals the final value of `idx`, since every streamed record,
skipped or scored, increments it exactly once. -/
theorem claim_C6_count_stream {Vec : Type} (get_text : String → String)
    (classifiers : List (String × ClassifierBundle Vec)) (db : List Record)
    (newest : Bool) (lang : Option String) :
    countQuery db newest lang = (runQuery db newest lang).length
    ∧ (classify get_text classifiers db newest lang).idx = countQuery db newest lang := by
  exact ⟨rfl, classify_idx_spec get_text classifiers db newest lang⟩

/-- C9: after any number of loop iterations the `updates` buffer holds at
most 100 entries (it is cleared the moment it reaches 100), and every bulk
write the run issues carries between 1 and 100 updates. -/
theorem claim_C9_buffer_bound {Vec : Type} (get_text : String → String)
    (classifiers : List (String × ClassifierBundle Vec)) (db : List Record)
    (newest : Bool) (lang : Option String) :
    (∀ n : Nat,
      (((runQuery db newest lang).take n).foldl
          (processRecord get_text classifiers (countQuery db newest lang))
          initState).updates.length ≤ 100)
    ∧ (∀ w ∈ (classify get_text classifiers db newest lang).bulkWrites,
        1 ≤ w.length ∧ w.length ≤ 100) := by
  constructor
  · intro n
    have hproj := fold_proj get_text classifiers (countQuery db newest lang)
      ((runQuery db newest lang).take n) initState
    have hupd : (((runQuery db newest lang).take n).foldl
        (processRecord get_text classifiers (countQuery db newest lang))
        initState).updates
        = ((((runQuery db newest lang).take n).filterMap
            (scoreRecord get_text classifiers)).foldl addU
              (([] : List ScoreUpdate), ([] : List (List ScoreUpdate)))).1 :=
      congrArg Prod.fst hproj
    obtain ⟨_, hrem⟩ := addU_lengths
      (((runQuery db newest lang).take n).filterMap (scoreRecord get_text classifiers))
      [] [] (by simp)
    rw [hupd, hrem]
    simp only [List.length_nil, Nat.zero_add]
    omega
  · intro w hw
    have hmemlen : w.length
        ∈ (classify get_text classifiers db newest lang).bulkWrites.map List.length :=
      List.mem_map_of_mem List.length hw
    have hspec := (classify_writes_spec get_text classifiers db newest lang).1
    rw [hspec] at hmemlen
    rcases List.mem_append.mp hmemlen with hrep | hif
    · have := List.eq_of_mem_replicate hrep
      omega
    · by_cases h0 : ((runQuery db newest lang).filterMap
          (scoreRecord get_text classifiers)).length % 100 = 0
      · rw [if_pos h0] at hif
        exact absurd hif (List.not_mem_nil _)
      · rw [if_neg h0] at hif
        have := List.mem_singleton.mp hif
        have hlt := Nat.mod_lt (((runQuery db newest lang).filterMap
          (scoreRecord get_text classifiers)).length) (show 0 < 100 by omega)
        omega

/-- C10: an empty-string `--lang` is falsy exactly like an absent one, so
the assembled SQL text, the selected stream, and the entire run coincide for
the two invocations: the empty string selects records of every language. -/
theorem claim_C10_empty_filter {Vec : Type} (get_text : String → String)
    (classifiers : List (String × ClassifierBundle Vec)) (db : List Record)
    (newest : Bool) :
    buildQuery newest (some "") = buildQuery newest none
    ∧ runQuery db newest (some "") = runQuery db newest none
    ∧ classify get_text classifiers db newest (some "") =
        classify get_text classifiers db newest none := by
  have hpred : queryPred newest (some "") = queryPred newest none := by
    funext r
    unfold queryPred langTruthy
    simp
  have hrq : runQuery db newest (some "") = runQuery db newest none := by
    unfold runQuery
    rw [hpred]
  refine ⟨?_, hrq, ?_⟩
  · unfold buildQuery langTruthy
    simp
  · unfold classify countQuery
    rw [hrq]

/-- C2: a record whose language has no registered classifier produces no
ScoreUpdate, prints no progress line, leaves the buffer and the issued
writes untouched — the loop iteration only increments `idx`, raising no
error — and after a whole run the row (its stored probability included) is
exactly what it was. -/
theorem claim_C2_skip {Vec : Type} (get_text : String → String)
    (classifiers : List (String × ClassifierBundle Vec)) (total : Nat)
    (s : RunState) (r : Record) (db : List Record) (newest : Bool)
    (lang : Option String) (hskip : dictGet classifiers r.lang = none) :
    scoreRecord get_text classifiers r = none
    ∧ processRecord get_text classifiers total s r = { s with idx := s.idx + 1 }
    ∧ ((db.map Record.id).Nodup → ∀ i : Nat, db[i]? = some r →
        (classifyAndCommit get_text classifiers db newest lang)[i]? = some r) := by
  have hsr : scoreRecord get_text classifiers r = none :=
    (scoreRecord_none_iff get_text classifiers r).mpr hskip
  refine ⟨hsr, processRecord_none get_text classifiers total s r hsr, ?_⟩
  intro hnodup i hi
  have hmem : r ∈ db := List.mem_iff_getElem?.mpr ⟨i, hi⟩
  rw [classifyAndCommit_map, List.getElem?_map, hi, Option.map_some']
  rw [foldl_pointStep_no_match _ _
    (no_update_for_unscored get_text classifiers db newest lang r hnodup hmem hsr)]

/-- C4: for a record whose language has a registered bundle, the update's
probability is literally entry `[0][1]` of the bundle's `predict_proba`
output on the vectorized extracted text — no rounding, no clamping — and
whenever that raw model output lies in [0, 1], so does the buffered
probability. -/
theorem claim_C4_probability {Vec : Type} (get_text : String → String)
    (classifiers : List (String × ClassifierBundle Vec)) (r : Record)
    (c : ClassifierBundle Vec) (h : dictGet classifiers r.lang = some c) :
    scoreRecord get_text classifiers r
      = some { id := r.id,
               probability :=
                 ((c.predict_proba (c.transform (get_text r.html))).getD 0 []).getD 1 0 }
    ∧ (0 ≤ ((c.predict_proba (c.transform (get_text r.html))).getD 0 []).getD 1 0 →
        ((c.predict_proba (c.transform (get_text r.html))).getD 0 []).getD 1 0 ≤ 1 →
        ∀ u : ScoreUpdate, scoreRecord get_text classifiers r = some u →
          0 ≤ u.probability ∧ u.probability ≤ 1) := by
  have h1 : scoreRecord get_text classifiers r
      = some { id := r.id,
               probability :=
                 ((c.predict_proba (c.transform (get_text r.html))).getD 0 []).getD 1 0 } := by
    unfold scoreRecord
    rw [h]
  refine ⟨h1, fun hlo hhi u hu => ?_⟩
  rw [h1] at hu
  have := Option.some.inj hu
  rw [← this]
  exact ⟨hlo, hhi⟩

/-! Concrete data used to exercise the theorems on closed inputs. -/

/-- An English bundle over the trivial feature type whose model always
answers probability 1 for the political class. -/
def demoBundle : ClassifierBundle Unit :=
  { transform := fun _ => (), predict_proba := fun _ => [[0, 1]] }

/-- A one-language registry: English only. -/
def demoClassifiers : List (String × ClassifierBundle Unit) :=
  [("en", demoBundle)]

/-- An unscored English record. -/
def demoRecord : Record :=
  { id := 1, lang := "en", html := "h", political_probability := 0 }

/-- An unscored record in a language with no registered classifier. -/
def demoRecordFr : Record :=
  { id := 2, lang := "fr", html := "h", political_probability := 0 }

/-- A stand-in for the external text extractor. -/
def demoGetText : String → String := fun s => s

theorem claim_C2_skip_witness :
    scoreRecord demoGetText demoClassifiers demoRecordFr = none
    ∧ processRecord demoGetText demoClassifiers 0 initState demoRecordFr
        = { initState with idx := initState.idx + 1 }
    ∧ ((([demoRecordFr]).map Record.id).Nodup → ∀ i : Nat,
        ([demoRecordFr])[i]? = some demoRecordFr →
        (classifyAndCommit demoGetText demoClassifiers [demoRecordFr] true none)[i]?
          = some demoRecordFr) :=
  claim_C2_skip demoGetText demoClassifiers 0 initState demoRecordFr
    [demoRecordFr] true none rfl

theorem claim_C4_probability_witness :
    scoreRecord demoGetText demoClassifiers demoRecord
      = some { id := demoRecord.id,
               probability :=
                 ((demoBundle.predict_proba
                   (demoBundle.transform (demoGetText demoRecord.html))).getD 0 []).getD 1 0 }
    ∧ (0 ≤ ((demoBundle.predict_proba
          (demoBundle.transform (demoGetText demoRecord.html))).getD 0 []).getD 1 0 →
        ((demoBundle.predict_proba
          (demoBundle.transform (demoGetText demoRecord.html))).getD 0 []).getD 1 0 ≤ 1 →
        ∀ u : ScoreUpdate, scoreRecord demoGetText demoClassifiers demoRecord = some u →
          0 ≤ u.probability ∧ u.probability ≤ 1) :=
  claim_C4_probability demoGetText demoClassifiers demoRecord demoBundle rfl

/-- C5: when the classifiers never answer exactly 0 on the run's records
(the acknowledged colliding edge case for the sentinel), a second
`newest`-mode run over the committed table scores zero records, issues no
bulk write, and leaves every stored probability exactly as the first run
left it. -/
theorem claim_C5_idempotent {Vec : Type} (get_text : String → String)
    (classifiers : List (String × ClassifierBundle Vec)) (db : List Record)
    (lang : Option String)
    (hnz : ∀ u ∈ (runQuery db true lang).filterMap (scoreRecord get_text classifiers),
      u.probability ≠ 0) :
    (runQuery (classifyAndCommit get_text classifiers db true lang) true lang).filterMap
        (scoreRecord get_text classifiers) = []
    ∧ (classify get_text classifiers
        (classifyAndCommit get_text classifiers db true lang) true lang).bulkWrites = []
    ∧ classifyAndCommit get_text classifiers
        (classifyAndCommit get_text classifiers db true lang) true lang
      = classifyAndCommit get_text classifiers db true lang := by
  set us := (runQuery db true lang).filterMap (scoreRecord get_text classifiers) with hus
  set db1 := classifyAndCommit get_text classifiers db true lang with hdb1
  have hkey : ∀ r' ∈ runQuery db1 true lang,
      scoreRecord get_text classifiers r' = none := by
    intro r' h'
    obtain ⟨hmem1, hpred⟩ := List.mem_filter.mp h'
    rw [hdb1, classifyAndCommit_map, ← hus] at hmem1
    obtain ⟨r, hrdb, hr'⟩ := List.mem_map.mp hmem1
    subst hr'
    have hprob0 : (us.foldl pointStep r).political_probability = 0 := by
      unfold queryPred at hpred
      rw [if_pos rfl] at hpred
      exact of_decide_eq_true ((Bool.and_eq_true _ _).mp hpred).1
    by_cases hmatch : ∃ u ∈ us, u.id = r.id
    · obtain ⟨u, hu, _, hup⟩ := foldl_pointStep_match us r hmatch
      exact absurd (hup.symm.trans hprob0) (hnz u hu)
    · have hfix : us.foldl pointStep r = r := foldl_pointStep_no_match us r
        (fun u hu he => hmatch ⟨u, hu, he⟩)
      rw [hfix]
      rw [hfix] at hpred
      cases hsc : scoreRecord get_text classifiers r with
      | none => rfl
      | some u =>
        have hrsel : r ∈ runQuery db true lang := List.mem_filter.mpr ⟨hrdb, hpred⟩
        have huin : u ∈ us := by
          rw [hus]
          exact List.mem_filterMap.mpr ⟨r, hrsel, hsc⟩
        exact absurd ⟨u, huin, scoreRecord_some_id _ _ _ _ hsc⟩ hmatch
  have h1 : (runQuery db1 true lang).filterMap (scoreRecord get_text classifiers) = [] :=
    List.filterMap_eq_nil_iff.mpr hkey
  refine ⟨h1, ?_, ?_⟩
  · have hspec := (classify_writes_spec get_text classifiers db1 true lang).1
    rw [h1] at hspec
    norm_num at hspec
    exact hspec
  · rw [classifyAndCommit_map, h1]
    simp only [List.foldl_nil]
    rw [List.map_id']

theorem claim_C5_idempotent_witness :
    (runQuery (classifyAndCommit demoGetText demoClassifiers [demoRecord] true none)
        true none).filterMap (scoreRecord demoGetText demoClassifiers) = []
    ∧ (classify demoGetText demoClassifiers
        (classifyAndCommit demoGetText demoClassifiers [demoRecord] true none)
        true none).bulkWrites = []
    ∧ classifyAndCommit demoGetText demoClassifiers
        (classifyAndCommit demoGetText demoClassifiers [demoRecord] true none) true none
      = classifyAndCommit demoGetText demoClassifiers [demoRecord] true none :=
  claim_C5_idempotent demoGetText demoClassifiers [demoRecord] none (by decide)

/-- C7: if the k-th bulk call (0-based) raises while every earlier call
succeeded, the run aborts by propagating the failure: the result is exactly
an error whose committed storage state is the first k batches of the
successful run — nothing later is written, nothing is retried. -/
theorem claim_C7_write_failure {Vec : Type} (failsOn : Nat → Bool)
    (get_text : String → String) (classifiers : List (String × ClassifierBundle Vec))
    (db : List Record) (newest : Bool) (lang : Option String) (k : Nat)
    (hbefore : ∀ j < k, failsOn j = false)
    (hfail : failsOn k = true)
    (hk : k < (classify get_text classifiers db newest lang).bulkWrites.length) :
    classifyE failsOn get_text classifiers db newest lang
      = .error { committed :=
          (classify get_text classifiers db newest lang).bulkWrites.take k } := by
  set total := countQuery db newest lang with htotal
  set records := runQuery db newest lang with hrecords
  set sF := records.foldl (processRecord get_text classifiers total) initState with hsF
  have hclE : classifyE failsOn get_text classifiers db newest lang
      = (match foldE failsOn get_text classifiers total records initState with
         | .error a => (Except.error a : Except AbortInfo RunState)
         | .ok s =>
           if s.updates = [] then .ok s
           else if failsOn s.bulkWrites.length then .error { committed := s.bulkWrites }
           else .ok { s with bulkWrites := s.bulkWrites ++ [s.updates] }) := rfl
  have hcl : classify get_text classifiers db newest lang
      = if sF.updates = [] then sF
        else { sF with bulkWrites := sF.bulkWrites ++ [sF.updates] } := rfl
  by_cases hkf : k < sF.bulkWrites.length
  · have hfe : foldE failsOn get_text classifiers total records initState
        = .error { committed := sF.bulkWrites.take k } :=
      foldE_error failsOn get_text classifiers total records initState k
        (by simp [initState]) hbefore hfail hkf
    rw [hclE, hfe, hcl]
    by_cases hemp : sF.updates = []
    · rw [if_pos hemp]
    · rw [if_neg hemp]
      show (Except.error { committed := sF.bulkWrites.take k } : Except AbortInfo RunState)
        = Except.error { committed := (sF.bulkWrites ++ [sF.updates]).take k }
      rw [List.take_append_of_le_length (le_of_lt hkf)]
  · have hok : foldE failsOn get_text classifiers total records initState = .ok sF :=
      foldE_ok failsOn get_text classifiers total records initState
        (fun j _ hjlt => hbefore j (lt_of_lt_of_le hjlt (Nat.le_of_not_lt hkf)))
    have hemp : ¬ sF.updates = [] := by
      intro hemp
      rw [hcl, if_pos hemp] at hk
      exact hkf hk
    have hk' : k < (sF.bulkWrites ++ [sF.updates]).length := by
      rw [hcl, if_neg hemp] at hk
      exact hk
    have hkeq : k = sF.bulkWrites.length := by
      rw [List.length_append, List.length_cons, List.length_nil] at hk'
      omega
    rw [hclE, hok]
    show (if sF.updates = [] then (Except.ok sF : Except AbortInfo RunState)
        else if failsOn sF.bulkWrites.length then
          Except.error { committed := sF.bulkWrites }
        else Except.ok { sF with bulkWrites := sF.bulkWrites ++ [sF.updates] })
      = _
    rw [if_neg hemp, if_pos (hkeq ▸ hfail), hcl, if_neg hemp]
    show (Except.error { committed := sF.bulkWrites } : Except AbortInfo RunState)
      = Except.error { committed := (sF.bulkWrites ++ [sF.updates]).take k }
    rw [hkeq, List.take_left]

theorem claim_C7_write_failure_witness :
    classifyE (fun _ => true) demoGetText demoClassifiers [demoRecord] true none
      = .error { committed :=
          (classify demoGetText demoClassifiers [demoRecord] true none).bulkWrites.take 0 } :=
  claim_C7_write_failure (fun _ => true) demoGetText demoClassifiers [demoRecord]
    true none 0 (fun j hj => absurd hj (Nat.not_lt_zero j)) rfl (by decide)

theorem loadClassifiers_error {Vec : Type}
    (entries : List (String × Except String (ClassifierBundle Vec))) (l e : String)
    (hmem : (l, Except.error e) ∈ entries) :
    ∃ msg, loadClassifiers entries = Except.error msg := by
  induction entries with
  | nil => exact absurd hmem (List.not_mem_nil _)
  | cons p rest ih =>
    rcases p with ⟨l', b⟩
    cases b with
    | error e' => exact ⟨e', rfl⟩
    | ok bb =>
      rcases List.mem_cons.mp hmem with heq | hrest
      · injection heq with h1 h2
        exact Except.noConfusion h2
      · obtain ⟨msg, hm⟩ := ih hrest
        refine ⟨msg, ?_⟩
        show (loadClassifiers rest).map (fun m => (l', bb) :: m) = Except.error msg
        rw [hm]
        rfl

/-- C8: every classifier bundle is loaded eagerly before the loop starts;
if any single artifact fails to load, the whole run surfaces that load
error — independently of the table contents, the mode, the filter, or the
storage's write behavior — so no record is ever processed, no write is ever
issued, and no run executes with a partial classifier set. -/
theorem claim_C8_load_failure {Vec : Type}
    (entries : List (String × Except String (ClassifierBundle Vec))) (l e : String)
    (hmem : (l, Except.error e) ∈ entries) :
    ∃ msg, ∀ (failsOn : Nat → Bool) (get_text : String → String) (db : List Record)
        (newest : Bool) (lang : Option String),
      classifyFull failsOn get_text entries db newest lang
        = .error (.loadError msg) := by
  obtain ⟨msg, hmsg⟩ := loadClassifiers_error entries l e hmem
  refine ⟨msg, fun failsOn get_text db newest lang => ?_⟩
  unfold classifyFull
  rw [hmsg]

theorem claim_C8_load_failure_witness :
    ∃ msg, ∀ (failsOn : Nat → Bool) (get_text : String → String) (db : List Record)
        (newest : Bool) (lang : Option String),
      classifyFull failsOn get_text
          [(("en" : String), (Except.error "boom" : Except String (ClassifierBundle Unit)))]
          db newest lang
        = .error (.loadError msg) :=
  claim_C8_load_failure
    [(("en" : String), (Except.error "boom" : Except String (ClassifierBundle Unit)))]
    "en" "boom" (List.mem_singleton.mpr rfl)

end PoliticalAds
